import Mathlib

/-!
Verification of the distribution abstraction layer in
`rtd_test/distributions/distribution_models.py`.

Tensors whose only relevant structure is the batch axis are modelled as
lists of per-example rows (`List α`); tensors whose reshape behaviour is
at stake are modelled as a shape together with flat row-major data
(`STensor`).  Numeric entries are rationals, so all sampling/transform
arithmetic is exact.
-/

set_option autoImplicit false

universe u v w

/-- Errors raised by the distribution layer.  The source raises Python
`ValueError` for both shape-style failures (the spec calls these
`ShapeMismatchError`) and `NotImplementedError` for unsupported
log-likelihoods (the spec calls these `UnsupportedOperationError`). -/
inductive DistError : Type
  | shapeMismatch : DistError
  | notImplemented : DistError
  | unsupportedOperation : DistError
deriving DecidableEq

/-- Embeds `T.extra_ops.repeat(x, r, axis=0)`: every batch row of `x` is
repeated `r` times in place, so `[a, b]` with `r = 2` becomes
`[a, a, b, b]`. -/
def repeatAxis0 {α : Type u} (r : Nat) (x : List α) : List α :=
  (x.map (List.replicate r)).flatten

theorem length_repeatAxis0 {α : Type u} (r : Nat) (x : List α) :
    (repeatAxis0 r x).length = r * x.length := by
  induction x with
  | nil => simp [repeatAxis0]
  | cons a l ih =>
      simp only [repeatAxis0] at ih
      simp only [repeatAxis0, List.map_cons, List.flatten_cons, List.length_append,
        List.length_replicate, List.length_cons, Nat.mul_succ, ih]
      omega

namespace Kumaraswamy

/-- Embeds the `segment` step function of `Kumaraswamy._stick_breaking_process`
(`stick_segment = v * remaining_stick; remaining_stick *= (1 - v)`), acting on
one batch row.  The state is the list of stick segments produced so far
together with the remaining stick mass. -/
def segment (s : List ℚ × ℚ) (vi : ℚ) : List ℚ × ℚ :=
  (s.1 ++ [vi * s.2], s.2 * (1 - vi))

/-- Embeds `Kumaraswamy._stick_breaking_process` on a single batch row
`v` (the `theano.scan` over `v.T[:-1]` treats batch rows independently,
so the batched transform is the row transform mapped over rows): fold
`segment` left-to-right over the first `n_dim - 1` entries of the row,
starting from no segments and remaining mass `1`, then append the final
remaining mass (`remaining_sticks[-1]`) as the last entry. -/
def stick_breaking_row (v : List ℚ) : List ℚ :=
  let r := v.dropLast.foldl segment ([], 1)
  r.1 ++ [r.2]

/-- Embeds `Kumaraswamy._stick_breaking_process` on the whole
`(n_batch, n_dim)` sample: the column-wise `theano.scan` computes
`stick_breaking_row` on every batch row. -/
def stick_breaking_process (v : List (List ℚ)) : List (List ℚ) :=
  v.map stick_breaking_row

/-- Remaining stick mass after breaking off sticks for every entry of
`v`: the product of the factors `1 - v i`. -/
def remaining_mass (v : List ℚ) : ℚ :=
  (v.map (fun t => 1 - t)).prod

/-- Follows the spec's description of the stick-breaking output
(`segment[i] = v[:,i] * remaining`, `remaining := remaining * (1 - v[:,i])`,
last column equal to the final remaining mass), written in closed form:
entry `i < n_dim - 1` is `v i` times the mass remaining after the first
`i` breaks, and the last entry is the mass remaining after `n_dim - 1`
breaks. -/
def stick_breaking_spec (v : List ℚ) : List ℚ :=
  ((List.range v.dropLast.length).map
    (fun i => v.dropLast.getD i 0 * remaining_mass (v.dropLast.take i)))
    ++ [remaining_mass v.dropLast]

theorem foldl_segment_eq (w : List ℚ) : ∀ (acc : List ℚ) (r : ℚ),
    w.foldl segment (acc, r) =
      (acc ++ (List.range w.length).map
        (fun i => w.getD i 0 * (r * remaining_mass (w.take i))),
       r * remaining_mass w) := by
  induction w with
  | nil =>
      intro acc r
      simp [remaining_mass]
  | cons a w ih =>
      intro acc r
      have hrange : List.range (w.length + 1) =
          0 :: (List.range w.length).map Nat.succ := List.range_succ_eq_map w.length
      simp only [List.foldl_cons, segment, List.length_cons, hrange, List.map_cons,
        List.map_map]
      rw [ih (acc ++ [a * r]) (r * (1 - a))]
      simp only [Prod.mk.injEq]
      constructor
      · rw [List.append_assoc]
        congr 1
        simp only [List.take_zero, remaining_mass, List.map_nil, List.prod_nil,
          List.getD_cons_zero, mul_one, List.cons_append, List.nil_append]
        congr 1
        apply List.map_congr_left
        intro i _
        simp only [Function.comp_apply, List.getD_cons_succ, List.take_succ_cons,
          remaining_mass, List.map_cons, List.prod_cons]
        ring
      · simp only [remaining_mass, List.map_cons, List.prod_cons]
        ring

theorem stick_breaking_row_eq_spec (v : List ℚ) :
    stick_breaking_row v = stick_breaking_spec v := by
  unfold stick_breaking_row stick_breaking_spec
  rw [foldl_segment_eq v.dropLast [] 1]
  simp

theorem foldl_segment_sum (w : List ℚ) : ∀ (acc : List ℚ) (r : ℚ),
    (w.foldl segment (acc, r)).1.sum + (w.foldl segment (acc, r)).2 =
      acc.sum + r := by
  induction w with
  | nil => intro acc r; simp
  | cons a w ih =>
      intro acc r
      simp only [List.foldl_cons, segment]
      rw [ih (acc ++ [a * r]) (r * (1 - a))]
      simp only [List.sum_append, List.sum_cons, List.sum_nil]
      ring

theorem stick_breaking_row_sum (v : List ℚ) :
    (stick_breaking_row v).sum = 1 := by
  unfold stick_breaking_row
  have h := foldl_segment_sum v.dropLast [] 1
  simp only [List.sum_nil, zero_add] at h
  simpa using h

end Kumaraswamy

/-- Model of a single-parameter `Distribution` instance for batch-level
claims.  `fprop` embeds
`lasagne.layers.get_output(self.mean_network, dict(zip(self.given, x)))`
as a black-box map from the list of conditioning inputs (each a batch of
rows) to the parameter batch, and `sample` embeds
`self.distribution.sample` as a black-box map on batches. -/
structure DistributionModel (α : Type u) (β : Type v) (γ : Type w) where
  fprop : List (List α) → List β
  sample : List β → List γ

/-- Model of a `DistributionDouble` instance: `fpropMean` and `fpropVar`
embed the two `lasagne.layers.get_output` calls of
`DistributionDouble.fprop` (mean network and var network on the same
inputs), and `sample2` embeds the two-parameter
`self.distribution.sample(*tolist(output))`. -/
structure DistributionDoubleModel (α : Type u) (β : Type v) (γ : Type w) where
  fpropMean : List (List α) → List β
  fpropVar : List (List α) → List β
  sample2 : List β → List β → List γ

namespace Distribution

/-- Embeds `Distribution.sample_given_x`: if `repeat != 1` every input is
tiled along the batch axis with `T.extra_ops.repeat`, then the parameters
are computed by `fprop` on the (possibly repeated) inputs, and the result
pairs those inputs with `self.distribution.sample` applied to the
parameters. -/
def sample_given_x {α : Type u} {β : Type v} {γ : Type w}
    (d : DistributionModel α β γ) (x : List (List α)) (rep : Nat) :
    List (List α) × List γ :=
  let x' := if rep ≠ 1 then x.map (repeatAxis0 rep) else x
  (x', d.sample (d.fprop x'))

/-- Embeds the body of `Distribution.fprop` on the input list `x`: the
source builds `inputs = dict(zip(self.given, x))` inside a
`try/except`, but Python's `zip` silently truncates to the shorter of
`self.given` and `x` and `dict` of a list of pairs never raises, so the
`except` branch (raising `ValueError` for a length mismatch) is
unreachable and `get_output` is always evaluated on the possibly
truncated pairing.  `given` is the list of declared input slots and
`get_output` the black-box network evaluation on a slot-to-input
assignment. -/
def fprop {α : Type u} {β : Type v} (given : List Nat)
    (get_output : List (Nat × List α) → List β) (x : List (List α)) :
    Except DistError (List β) :=
  let inputs := given.zip x
  Except.ok (get_output inputs)

end Distribution

/-- State of the sampler's random stream (`RandomStreams` owned by the
elementary-distribution object): the seed it was last seeded with and the
number of variates consumed from the stream since that seeding. -/
structure RngState : Type where
  seed : Nat
  consumed : Nat
deriving DecidableEq

/-- Embeds `self.distribution.set_seed(seed)`: the stream restarts from
the given seed with nothing consumed. -/
def RngState.reseed (seed : Nat) : RngState :=
  ⟨seed, 0⟩

/-- Consuming `n` variates from the stream advances its position. -/
def RngState.consume (st : RngState) (n : Nat) : RngState :=
  ⟨st.seed, st.consumed + n⟩

/-- The value of the next variate of the stream: an arbitrary but fixed
deterministic function of the seed and of the position in the stream. -/
def RngState.peek (st : RngState) : Nat :=
  st.seed * 1000003 + st.consumed

/-- The sequence of the next `n` variates the stream will produce. -/
def RngState.sequence (st : RngState) (n : Nat) : List Nat :=
  (List.range n).map (fun i => (st.consume i).peek)

namespace Distribution

/-- Embeds `Distribution.set_seed`: seed the sampler's stream, build the
four compiled entry points with `_set_theano_func` (graph construction
consumes some number `build` of variates from the stream), then seed the
stream again.  The result is the stream state right after construction,
from which all execution-time draws are made. -/
def set_seed (seed : Nat) (build : Nat) (st : RngState) : RngState :=
  let st1 := RngState.reseed seed
  let st2 := st1.consume build
  let st3 := RngState.reseed st2.seed
  st3

end Distribution

namespace DistributionDouble

/-- Embeds `Distribution.sample_given_x` as executed on a
`DistributionDouble`: the dual `fprop` returns the pair
`(mean, var)`, `tolist` turns it into a two-element list, and
`self.distribution.sample(mean, var)` draws the value. -/
def sample_given_x {α : Type u} {β : Type v} {γ : Type w}
    (d : DistributionDoubleModel α β γ) (x : List (List α)) (rep : Nat) :
    List (List α) × List γ :=
  let x' := if rep ≠ 1 then x.map (repeatAxis0 rep) else x
  (x', d.sample2 (d.fpropMean x') (d.fpropVar x'))

/-- Steps performed by `DistributionDouble.__init__`, in order:
re-seeding the sampler's stream and compiling each of the four numeric
entry points inside `_set_theano_func`, and the final declared-shape
comparison of the two networks. -/
inductive InitStep : Type
  | seedSampler : InitStep
  | buildFprop : InitStep
  | buildSampleMean : InitStep
  | buildSample : InitStep
  | buildLogLikelihood : InitStep
  | shapeCheck : InitStep
deriving DecidableEq

/-- Embeds `DistributionDouble.__init__` as the ordered trace of its
effects together with its outcome: it first runs
`Distribution.__init__`, whose `set_seed` seeds the sampler, compiles
the `fprop`, `sample_mean_given_x` and `sample_given_x` theano functions
(plus the log-likelihood one when `set_log_likelihood` holds) and seeds
the sampler again; only after all of that does it compare
`self.get_output_shape()` with the var network's output shape and raise
`ValueError` (the spec's `ShapeMismatchError`) when they differ.  Shapes
are lasagne declared shapes, with `none` for an unknown (batch)
dimension. -/
def init_trace (meanShape varShape : List (Option Nat))
    (set_log_likelihood : Bool) : List InitStep × Option DistError :=
  let baseInit : List InitStep :=
    [InitStep.seedSampler, InitStep.buildFprop, InitStep.buildSampleMean,
      InitStep.buildSample]
    ++ (if set_log_likelihood then [InitStep.buildLogLikelihood] else [])
    ++ [InitStep.seedSampler]
  if meanShape = varShape then
    (baseInit ++ [InitStep.shapeCheck], none)
  else
    (baseInit ++ [InitStep.shapeCheck], some DistError.shapeMismatch)

/-- Embeds `sorted(set(params), key=params.index)` from
`DistributionDouble.get_params`, read off left to right: an element is
kept the first time it is seen and dropped on every later occurrence.
`seen` holds the elements already emitted. -/
def orderedDedup (seen : List Nat) : List Nat → List Nat
  | [] => []
  | a :: l =>
      if a ∈ seen then orderedDedup seen l
      else a :: orderedDedup (seen ++ [a]) l

/-- Embeds `DistributionDouble.get_params`: the trainable parameters of
the mean network (from `Distribution.get_params`) followed by those of
the var network, de-duplicated by `sorted(set(params), key=params.index)`
which keeps the first occurrence of each parameter in list order.
Parameters are modelled as opaque handles (`Nat`). -/
def get_params (meanParams varParams : List Nat) : List Nat :=
  orderedDedup [] (meanParams ++ varParams)

end DistributionDouble

/-- Follows the spec's words for `collect_trainable_parameters`
("de-duplicated while preserving first-seen order"): the first
occurrence of each element is kept in place and every later occurrence
is removed.  A keep-last de-duplication (which would map `[0, 1, 0]` to
`[1, 0]`) does not satisfy this definition, which maps it to
`[0, 1]`. -/
def firstSeenDedup : List Nat → List Nat
  | [] => []
  | a :: l => a :: (firstSeenDedup l).filter (fun b => decide (b ≠ a))

namespace Kumaraswamy

/-- Embeds `Kumaraswamy.sample_given_x`: delegate to the inherited
`Distribution.sample_given_x` (through `DistributionDouble`), then, when
`self.stick_breaking` is set, pass the drawn value through
`_stick_breaking_process`; when it is not, return the raw draw
unchanged. -/
def sample_given_x {α : Type u} {β : Type v}
    (stick_breaking : Bool) (d : DistributionDoubleModel α β (List ℚ))
    (x : List (List α)) (rep : Nat) : List (List α) × List (List ℚ) :=
  let r := DistributionDouble.sample_given_x d x rep
  (r.1, if stick_breaking then stick_breaking_process r.2 else r.2)

/-- Embeds `Kumaraswamy.log_likelihood_given_x`: the body is a bare
`raise NotImplementedError`, whatever the arguments. -/
def log_likelihood_given_x {σ : Type u} (args : σ) :
    Except DistError (List ℚ) :=
  Except.error DistError.notImplemented

end Kumaraswamy

namespace DeterministicSample

/-- Modelled from the spec: `DeterministicSample.log_likelihood` lives in
`distribution_samples.py`, which is not part of the sources at hand; the
spec states that for the Deterministic family log-likelihood is
"disabled (undefined for a point mass)" and that requesting it "raises
UnsupportedOperationError ... unconditionally". -/
def log_likelihood (sample : List ℚ) (mean : List ℚ) :
    Except DistError (List ℚ) :=
  Except.error DistError.unsupportedOperation

end DeterministicSample

namespace Deterministic

/-- Embeds `Distribution.log_likelihood_given_x` as executed on a
`Deterministic` instance (which does not override it): unpack the
`[x, sample]` record, recompute the parameters with `fprop`, then
delegate to the elementary `DeterministicSample.log_likelihood`. -/
def log_likelihood_given_x {α : Type u}
    (d : DistributionModel α ℚ ℚ)
    (samples : List (List α) × List ℚ) : Except DistError (List ℚ) :=
  let x := samples.1
  let sample := samples.2
  let output := d.fprop x
  DeterministicSample.log_likelihood sample output

end Deterministic

/-- A tensor with explicit shape bookkeeping: the shape and the entries
in row-major order.  Used for the claims about theano `reshape`
behaviour, which checks element counts at run time. -/
structure STensor : Type where
  shape : List Nat
  data : List ℚ
deriving DecidableEq

namespace STensor

/-- Embeds theano `reshape` with a fully explicit target shape: reshaping
keeps the row-major data and succeeds exactly when the target shape holds
the same number of elements; otherwise evaluation fails at run time
(`none`). -/
def reshape (t : STensor) (s : List Nat) : Option STensor :=
  if s.prod = t.data.length then some ⟨s, t.data⟩ else none

/-- Embeds theano `reshape((-1, m))`: the leading dimension is inferred
as `total / m`, and evaluation fails at run time unless `m` is positive
and divides the element count. -/
def reshapeNeg1 (t : STensor) (m : Nat) : Option STensor :=
  if 0 < m ∧ m ∣ t.data.length then some ⟨[t.data.length / m, m], t.data⟩
  else none

/-- Embeds `T.extra_ops.repeat(x, r, axis=0)` on a shaped tensor: the
leading dimension is multiplied by `r` and every axis-0 slice (a chunk of
`rest.prod` entries) is repeated `r` times in place. -/
def repeatAxis0 (r : Nat) (t : STensor) : STensor :=
  match t.shape with
  | [] => t
  | b :: rest =>
      ⟨r * b :: rest,
        ((t.data.toChunks rest.prod).map (fun c => (List.replicate r c).flatten)).flatten⟩

end STensor

namespace Categorical

/-- Embeds `self.k = self.get_output_shape()[-1]` from
`Categorical.__init__`: the number of categories is the last entry of
the mean network's declared output shape. -/
def inferK (outputShape : List Nat) : Nat :=
  outputShape.getLast?.getD 0

/-- Embeds `Categorical.fprop`: evaluate the inherited
`Distribution.fprop` (the black-box `mean_net` on the inputs), then
`mean.reshape((-1, self.n_dim * self.k))`. -/
def fprop (n_dim k : Nat) (mean_net : List STensor → STensor)
    (x : List STensor) : Option STensor :=
  let mean := mean_net x
  mean.reshapeNeg1 (n_dim * k)

/-- Embeds `Categorical.sample_given_x`: repeat the inputs along the
batch axis when `repeat != 1`, evaluate the inherited
`Distribution.fprop` (without the reshape of `Categorical.fprop`), draw
`self.distribution.sample(mean)` and reshape the draw with
`reshape((-1, self.n_dim * self.k))`. -/
def sample_given_x (n_dim k : Nat) (mean_net : List STensor → STensor)
    (sample : STensor → STensor) (x : List STensor) (rep : Nat) :
    Option (List STensor × STensor) :=
  let x' := if rep ≠ 1 then x.map (STensor.repeatAxis0 rep) else x
  let mean := mean_net x'
  match (sample mean).reshapeNeg1 (n_dim * k) with
  | some output => some (x', output)
  | none => none

end Categorical

namespace Dirichlet

/-- Embeds `Dirichlet.sample_given_x`: repeat the inputs along the batch
axis when `repeat != 1`, evaluate the inherited `Distribution.fprop`,
record `_shape = mean.shape`, reshape the parameters to
`(_shape[0], _shape[1] / k, k)` (integer division, as in the source),
draw `self.distribution.sample` on the reshaped parameters and reshape
the draw back to `_shape`. -/
def sample_given_x (k : Nat) (mean_net : List STensor → STensor)
    (sample : STensor → STensor) (x : List STensor) (rep : Nat) :
    Option (List STensor × STensor) :=
  let x' := if rep ≠ 1 then x.map (STensor.repeatAxis0 rep) else x
  let mean := mean_net x'
  let shape0 := mean.shape.getD 0 0
  let shape1 := mean.shape.getD 1 0
  match mean.reshape [shape0, shape1 / k, k] with
  | none => none
  | some mean2 =>
      match (sample mean2).reshape mean.shape with
      | none => none
      | some output => some (x', output)

end Dirichlet

/-! ## Theorems for the claims -/

/-- C1.  `Kumaraswamy.sample_given_x` with `stick_breaking` enabled
applies the stick-breaking transform to the raw draw, row by row; each
row is produced by the strictly sequential left-to-right fold over the
first `n_dim - 1` entries (`segment i = v i * remaining`,
`remaining := remaining * (1 - v i)`), the last entry being the final
remaining mass, as witnessed by the closed form `stick_breaking_spec`;
for `n_dim = 3` and used draws `0.5, 0.5` the row is
`[0.5, 0.25, 0.25]`; and every row whose entries lie in `[0, 1]` sums
to `1`. -/
theorem claim_stick_breaking :
    (∀ (α β : Type) (d : DistributionDoubleModel α β (List ℚ))
        (x : List (List α)) (rep : Nat),
      Kumaraswamy.sample_given_x true d x rep =
        ((DistributionDouble.sample_given_x d x rep).1,
          (DistributionDouble.sample_given_x d x rep).2.map
            Kumaraswamy.stick_breaking_row)) ∧
    (∀ v : List ℚ,
      Kumaraswamy.stick_breaking_row v = Kumaraswamy.stick_breaking_spec v) ∧
    (∀ c : ℚ, Kumaraswamy.stick_breaking_row [1/2, 1/2, c] = [1/2, 1/4, 1/4]) ∧
    (∀ v : List ℚ, (∀ t ∈ v, 0 ≤ t ∧ t ≤ 1) →
      (Kumaraswamy.stick_breaking_row v).sum = 1) := by
  refine ⟨fun α β d x rep => rfl, Kumaraswamy.stick_breaking_row_eq_spec, ?_, ?_⟩
  · intro c
    norm_num [Kumaraswamy.stick_breaking_row, Kumaraswamy.segment]
  · intro v _
    exact Kumaraswamy.stick_breaking_row_sum v

/-- Witness for C1 at the concrete row `[1/2, 1/2, 1/2]`. -/
theorem claim_stick_breaking_witness :
    (∀ t ∈ ([1/2, 1/2, 1/2] : List ℚ), 0 ≤ t ∧ t ≤ 1) ∧
    (Kumaraswamy.stick_breaking_row [1/2, 1/2, 1/2]).sum = 1 :=
  ⟨by norm_num, claim_stick_breaking.2.2.2 [1/2, 1/2, 1/2] (by norm_num)⟩

/-- C5.  `Kumaraswamy.log_likelihood_given_x` raises
`NotImplementedError` whatever its arguments, and
`log_likelihood_given_x` on a `Deterministic` instance delegates to the
elementary `DeterministicSample.log_likelihood`, which (as the spec
states for the point-mass family) is unsupported whatever the record
passed. -/
theorem claim_log_likelihood_unsupported :
    (∀ (σ : Type) (args : σ),
      Kumaraswamy.log_likelihood_given_x args =
        Except.error DistError.notImplemented) ∧
    (∀ (α : Type) (d : DistributionModel α ℚ ℚ)
        (samples : List (List α) × List ℚ),
      Deterministic.log_likelihood_given_x d samples =
        Except.error DistError.unsupportedOperation) :=
  ⟨fun _ _ => rfl, fun _ _ _ => rfl⟩

/-- C6.  `Distribution.set_seed` re-seeds the sampler's stream after the
compiled entry points are built, so the post-construction stream state —
and hence every execution-time sample sequence — does not depend on how
many variates graph construction consumed, nor on the prior stream
state: two structurally identical instances given the same seed start
from the same state and produce the same sequences. -/
theorem claim_seed_reproducibility :
    ∀ (seed build1 build2 : Nat) (st1 st2 : RngState) (n : Nat),
      Distribution.set_seed seed build1 st1 =
        Distribution.set_seed seed build2 st2 ∧
      (Distribution.set_seed seed build1 st1).sequence n =
        (Distribution.set_seed seed build2 st2).sequence n ∧
      Distribution.set_seed seed build1 st1 = RngState.reseed seed :=
  fun _ _ _ _ _ _ => ⟨rfl, rfl, rfl⟩

/-- C10.  `Kumaraswamy.sample_given_x` with `stick_breaking = False` is
exactly the inherited `Distribution.sample_given_x` path: the returned
value is the raw two-parameter elementary draw on the (possibly
repeated) inputs, with no stick-breaking transform applied. -/
theorem claim_stick_breaking_disabled :
    ∀ (α β : Type) (d : DistributionDoubleModel α β (List ℚ))
      (x : List (List α)) (rep : Nat),
      Kumaraswamy.sample_given_x false d x rep =
        DistributionDouble.sample_given_x d x rep ∧
      (Kumaraswamy.sample_given_x false d x rep).2 =
        d.sample2
          (d.fpropMean (if rep ≠ 1 then x.map (repeatAxis0 rep) else x))
          (d.fpropVar (if rep ≠ 1 then x.map (repeatAxis0 rep) else x)) :=
  fun _ _ _ _ _ => ⟨rfl, rfl⟩

/-- C3 (code bug).  `Distribution.fprop` never raises on a
length-mismatched input list: `dict(zip(given, x))` truncates silently,
so the guarded `ValueError` is unreachable and `get_output` is evaluated
on the truncated pairing — here concretely with two declared slots and
zero inputs. -/
theorem claim_fprop_length_mismatch :
    (∀ (α β : Type) (given : List Nat)
        (get_output : List (Nat × List α) → List β) (x : List (List α)),
      Distribution.fprop given get_output x =
        Except.ok (get_output (given.zip x))) ∧
    Distribution.fprop [0, 1] (fun l => [l.length]) ([] : List (List ℚ)) =
      Except.ok [0] :=
  ⟨fun _ _ _ _ _ => rfl, rfl⟩

/-- C2.  `Distribution.sample_given_x` with `repeat = r > 1` first tiles
every conditioning input `r` times along the batch axis, computes the
parameters with `fprop` on the tiled inputs, and pairs the tiled inputs
with the elementary draw; when the predictor and the sampler preserve
the batch dimension, every returned input and the returned value have
batch dimension exactly `r` times the original one. -/
theorem claim_repeat_sampling (α β γ : Type)
    (d : DistributionModel α β γ) (x : List (List α)) (rep n : Nat)
    (hrep : 1 < rep) (hx : x ≠ []) (hn : ∀ t ∈ x, t.length = n)
    (hf : ∀ (y : List (List α)) (m : Nat), y ≠ [] →
      (∀ t ∈ y, t.length = m) → (d.fprop y).length = m)
    (hs : ∀ p, (d.sample p).length = p.length) :
    (Distribution.sample_given_x d x rep).1 = x.map (repeatAxis0 rep) ∧
    (∀ t ∈ (Distribution.sample_given_x d x rep).1, t.length = rep * n) ∧
    (Distribution.sample_given_x d x rep).2 =
      d.sample (d.fprop (x.map (repeatAxis0 rep))) ∧
    (Distribution.sample_given_x d x rep).2.length = rep * n := by
  have hne : rep ≠ 1 := by omega
  have hlen : ∀ t ∈ x.map (repeatAxis0 rep), t.length = rep * n := by
    intro t ht
    rcases List.mem_map.1 ht with ⟨s, hs', rfl⟩
    rw [length_repeatAxis0, hn s hs']
  refine ⟨?_, ?_, ?_, ?_⟩
  · simp [Distribution.sample_given_x, hne]
  · intro t ht
    simp only [Distribution.sample_given_x, if_pos hne] at ht
    exact hlen t ht
  · simp [Distribution.sample_given_x, hne]
  · simp only [Distribution.sample_given_x, if_pos hne]
    rw [hs]
    exact hf _ (rep * n) (by simpa using hx) hlen

/-- Concrete distribution used to instantiate the conditional claims:
the predictor returns its first conditioning input and the elementary
sampler is the identity on the parameter batch. -/
def headEchoModel : DistributionModel Nat Nat Nat where
  fprop := fun y => (y.headD []).map id
  sample := fun p => p

/-- Witness for C2: the concrete model on one length-2 input with
`repeat = 2` returns a value of batch dimension `2 * 2`. -/
theorem claim_repeat_sampling_witness :
    1 < 2 ∧ (Distribution.sample_given_x headEchoModel [[5, 7]] 2).2.length = 2 * 2 :=
  ⟨by norm_num,
    (claim_repeat_sampling Nat Nat Nat headEchoModel [[5, 7]] 2 2
      (by norm_num) (by simp)
      (by intro t ht; simp only [List.mem_singleton] at ht; simp [ht])
      (by
        intro y m hy hm
        match y with
        | [] => exact absurd rfl hy
        | t :: l => simpa [headEchoModel] using hm t (List.mem_cons_self t l))
      (fun p => rfl)).2.2.2⟩

/-- C4 (counterexample to the claim as stated).  With declared output
shapes `(batch, 10)` and `(batch, 8)`, `DistributionDouble.__init__`
does raise the shape-mismatch error, but only after the base-class
initializer has already compiled the sampling entry point: the build
step occurs in the constructor's trace, contradicting the claim that no
sampling entry point is built prior to the check. -/
theorem claim_dual_shape_check_counterexample :
    (DistributionDouble.init_trace [none, some 10] [none, some 8] true).2 =
      some DistError.shapeMismatch ∧
    ¬ DistributionDouble.InitStep.buildSample ∉
        (DistributionDouble.init_trace [none, some 10] [none, some 8] true).1 := by
  refine ⟨?_, ?_⟩ <;> decide

/-- C4 (amended).  Constructing a `DistributionDouble` whose two
predictors declare different output shapes raises the shape-mismatch
error; the check is the final step of the constructor, so it happens
after the base initializer has compiled the numeric entry points
(including the sampling one) but before any caller-initiated
sampling. -/
theorem claim_dual_shape_check (meanShape varShape : List (Option Nat))
    (sll : Bool) (h : meanShape ≠ varShape) :
    (DistributionDouble.init_trace meanShape varShape sll).2 =
      some DistError.shapeMismatch ∧
    DistributionDouble.InitStep.buildSample ∈
      (DistributionDouble.init_trace meanShape varShape sll).1 ∧
    (DistributionDouble.init_trace meanShape varShape sll).1.getLast? =
      some DistributionDouble.InitStep.shapeCheck := by
  refine ⟨?_, ?_, ?_⟩
  · simp [DistributionDouble.init_trace, h]
  · cases sll <;> simp [DistributionDouble.init_trace, h]
  · cases sll <;> simp [DistributionDouble.init_trace, h]

/-- Witness for C4 at the concrete mismatched shapes `(batch, 10)` and
`(batch, 8)`. -/
theorem claim_dual_shape_check_witness :
    ([none, some 10] : List (Option Nat)) ≠ [none, some 8] ∧
    (DistributionDouble.init_trace [none, some 10] [none, some 8] true).2 =
      some DistError.shapeMismatch :=
  ⟨by decide,
    (claim_dual_shape_check [none, some 10] [none, some 8] true (by decide)).1⟩

namespace DistributionDouble

theorem orderedDedup_mem : ∀ (l seen : List Nat) (p : Nat),
    p ∈ orderedDedup seen l ↔ p ∈ l ∧ p ∉ seen := by
  intro l
  induction l with
  | nil => intro seen p; simp [orderedDedup]
  | cons a l ih =>
      intro seen p
      by_cases ha : a ∈ seen
      · simp only [orderedDedup, if_pos ha, ih, List.mem_cons]
        constructor
        · rintro ⟨hp, hns⟩; exact ⟨Or.inr hp, hns⟩
        · rintro ⟨hp | hp, hns⟩
          · exact absurd (hp ▸ ha) hns
          · exact ⟨hp, hns⟩
      · simp only [orderedDedup, if_neg ha, List.mem_cons, ih, List.mem_append,
          List.mem_singleton]
        constructor
        · rintro (rfl | ⟨hp, hns⟩)
          · exact ⟨Or.inl rfl, ha⟩
          · exact ⟨Or.inr hp, fun hc => hns (Or.inl hc)⟩
        · rintro ⟨rfl | hp, hns⟩
          · exact Or.inl rfl
          · by_cases hpa : p = a
            · exact Or.inl hpa
            · refine Or.inr ⟨hp, fun hc => ?_⟩
              rcases hc with hc | hc | hc
              · exact hns hc
              · exact hpa hc
              · exact absurd hc (List.not_mem_nil p)

theorem orderedDedup_sublist : ∀ (l seen : List Nat),
    (orderedDedup seen l).Sublist l := by
  intro l
  induction l with
  | nil => intro seen; simp [orderedDedup]
  | cons a l ih =>
      intro seen
      by_cases ha : a ∈ seen
      · simpa only [orderedDedup, if_pos ha] using (ih seen).trans (List.sublist_cons_self a l)
      · simpa only [orderedDedup, if_neg ha] using (ih (seen ++ [a])).cons₂ a

theorem orderedDedup_nodup : ∀ (l seen : List Nat),
    (orderedDedup seen l).Nodup := by
  intro l
  induction l with
  | nil => intro seen; simp [orderedDedup]
  | cons a l ih =>
      intro seen
      by_cases ha : a ∈ seen
      · simpa only [orderedDedup, if_pos ha] using ih seen
      · simp only [orderedDedup, if_neg ha, List.nodup_cons]
        refine ⟨fun hc => ?_, ih (seen ++ [a])⟩
        exact ((orderedDedup_mem l (seen ++ [a]) a).1 hc).2 (by simp)

theorem orderedDedup_eq_filter : ∀ (l seen : List Nat),
    orderedDedup seen l =
      (firstSeenDedup l).filter (fun b => decide (b ∉ seen)) := by
  intro l
  induction l with
  | nil => intro seen; simp [orderedDedup, firstSeenDedup]
  | cons a l ih =>
      intro seen
      by_cases ha : a ∈ seen
      · have hda : (decide (a ∉ seen)) = false := by simp [ha]
        simp only [orderedDedup, if_pos ha, firstSeenDedup, List.filter_cons, hda,
          Bool.false_eq_true, if_false, ih seen, List.filter_filter]
        apply List.filter_congr
        intro p _
        by_cases hp : p ∈ seen
        · simp [hp]
        · have hpa : p ≠ a := fun h => hp (h ▸ ha)
          simp [hp, hpa]
      · have hda : (decide (a ∉ seen)) = true := by simp [ha]
        simp only [orderedDedup, if_neg ha, firstSeenDedup, List.filter_cons, hda,
          if_true, ih (seen ++ [a]), List.filter_filter, List.cons.injEq, true_and]
        apply List.filter_congr
        intro p _
        by_cases hp : p ∈ seen
        · simp [hp, List.mem_append]
        · by_cases hpa : p = a
          · simp [hpa, List.mem_append]
          · simp [hp, hpa, List.mem_append]

/-- The accumulator embedding of `sorted(set(params), key=params.index)`
agrees with the keep-first de-duplication the spec describes. -/
theorem orderedDedup_eq_firstSeenDedup (l : List Nat) :
    orderedDedup [] l = firstSeenDedup l := by
  rw [orderedDedup_eq_filter l []]
  apply List.filter_eq_self.2
  intro p _
  simp

end DistributionDouble

/-- C9.  `DistributionDouble.get_params` returns the trainable
parameters of the mean network followed by those of the var network,
de-duplicated keeping the *first* occurrence of each handle: the result
equals `firstSeenDedup` of the concatenation (the keep-first
de-duplication the spec describes, which a keep-last scheme fails, as
the concrete `[0, 1] / [0]` instance shows), has no duplicate handles,
holds exactly the handles of the two predictors' lists, and is a
sublist of their concatenation; being a pure function of the two lists,
repeated calls on the same instance return the same list in the same
order. -/
theorem claim_get_params_dedup (meanParams varParams : List Nat) :
    DistributionDouble.get_params meanParams varParams =
      firstSeenDedup (meanParams ++ varParams) ∧
    DistributionDouble.get_params [0, 1] [0] = [0, 1] ∧
    (DistributionDouble.get_params meanParams varParams).Nodup ∧
    (∀ p, p ∈ DistributionDouble.get_params meanParams varParams ↔
      p ∈ meanParams ++ varParams) ∧
    (DistributionDouble.get_params meanParams varParams).Sublist
      (meanParams ++ varParams) := by
  refine ⟨DistributionDouble.orderedDedup_eq_firstSeenDedup _, by decide,
    DistributionDouble.orderedDedup_nodup _ _, ?_,
    DistributionDouble.orderedDedup_sublist _ _⟩
  intro p
  rw [DistributionDouble.get_params,
    DistributionDouble.orderedDedup_mem (meanParams ++ varParams) [] p]
  simp

/-- C7.  `Dirichlet.sample_given_x` on a predictor output of shape
`(batch, dim*k)` reshapes the parameters to `(batch, dim, k)` (the
source divides the second dimension by `k`), draws the sample on the
reshaped parameters, and reshapes the draw back to the recorded
original shape, so for an element-count-preserving sampler the returned
sample's shape is exactly the predictor output shape. -/
theorem claim_dirichlet_reshape_roundtrip
    (k b dim rep : Nat) (mean_net : List STensor → STensor)
    (sample : STensor → STensor) (x x' : List STensor)
    (hx' : x' = if rep ≠ 1 then x.map (STensor.repeatAxis0 rep) else x)
    (hk : 0 < k)
    (hshape : (mean_net x').shape = [b, dim * k])
    (hdata : (mean_net x').data.length = b * (dim * k))
    (hs : ∀ t, (sample t).data.length = t.data.length) :
    ∃ out : STensor,
      Dirichlet.sample_given_x k mean_net sample x rep = some (x', out) ∧
      out.shape = (mean_net x').shape ∧ out.shape = [b, dim * k] := by
  subst hx'
  set X := (if rep ≠ 1 then x.map (STensor.repeatAxis0 rep) else x) with hX
  set mean := mean_net X with hmean
  have e0 : mean.shape.getD 0 0 = b := by rw [hshape]; rfl
  have e1 : mean.shape.getD 1 0 = dim * k := by rw [hshape]; rfl
  have hd : dim * k / k = dim := Nat.mul_div_cancel dim hk
  have hr1 : mean.reshape [b, dim, k] = some ⟨[b, dim, k], mean.data⟩ := by
    simp [STensor.reshape, hdata, mul_assoc]
  set mean2 : STensor := ⟨[b, dim, k], mean.data⟩ with hmean2
  have hr2 : (sample mean2).reshape mean.shape =
      some ⟨mean.shape, (sample mean2).data⟩ := by
    simp [STensor.reshape, hshape, hs, hdata, mul_assoc]
  refine ⟨⟨mean.shape, (sample mean2).data⟩, ?_, rfl, by rw [hshape]⟩
  simp only [Dirichlet.sample_given_x, ← hX, ← hmean, e0, e1, hd, hr1, hr2]

/-- Constant predictor with declared and runtime shape `(1, 2)`, used to
instantiate the Dirichlet round-trip claim. -/
def dirNet2 : List STensor → STensor := fun _inputs => ⟨[1, 2], [0, 0]⟩

/-- Witness for C7 with `k = 2`, batch `1`, `dim = 1` and the identity
sampler. -/
theorem claim_dirichlet_reshape_roundtrip_witness :
    0 < 2 ∧
    ∃ out : STensor,
      Dirichlet.sample_given_x 2 dirNet2 (fun t => t) [] 1 = some ([], out) ∧
      out.shape = (dirNet2 []).shape ∧ out.shape = [1, 1 * 2] :=
  ⟨by norm_num,
    claim_dirichlet_reshape_roundtrip 2 1 1 1 dirNet2 (fun t => t) [] []
      (by simp) (by norm_num) rfl rfl (fun t => rfl)⟩

/-- Constant predictor whose declared and runtime output shape is
`(2, 6)`, used to refute the claim's concrete Categorical example. -/
def catNetFlat : List STensor → STensor := fun _inputs => ⟨[2, 6], List.replicate 12 0⟩

/-- Constant predictor whose declared and runtime output shape is
`(1, 2, 3)`, used to instantiate the amended Categorical claim. -/
def catNetCube : List STensor → STensor := fun _inputs => ⟨[1, 2, 3], List.replicate 6 0⟩

/-- C8 (counterexample to the claim as stated).  With `n_dim = 2` and a
predictor whose declared output shape is `(2, 6)`, the code infers
`K = 6` — the last dimension — not `3`, and `Categorical.fprop`
reshapes to `(-1, 2 * 6) = (1, 12)`, not to the identity shape
`(2, 6)`. -/
theorem claim_categorical_identity_reshape_counterexample :
    Categorical.inferK [2, 6] = 6 ∧
    Categorical.fprop 2 (Categorical.inferK [2, 6]) catNetFlat [] =
      some ⟨[1, 12], List.replicate 12 0⟩ ∧
    (⟨[1, 12], List.replicate 12 0⟩ : STensor).shape ≠ [2, 6] := by
  refine ⟨rfl, ?_, by decide⟩
  rfl

/-- C8 (amended).  `Categorical` infers `K` as the last dimension of the
predictor's declared output shape, and both `fprop` and
`sample_given_x` reshape with `(-1, n_dim * K)`: for a predictor
declaring `(b, n_dim, K)` — e.g. `(batch, 2, 3)` for `n_dim = 2`,
`K = 3` — and an element-count-preserving sampler, `fprop` returns a
tensor of shape `(b, n_dim * K)` and sampling returns a tensor of shape
`(b, n_dim * K)`; for a predictor declaring `(batch, 6)` the inferred
`K` is `6`, so the reshape is not the identity claimed. -/
theorem claim_categorical_reshape
    (n_dim k b rep : Nat) (mean_net : List STensor → STensor)
    (sample : STensor → STensor) (x x' : List STensor)
    (hx' : x' = if rep ≠ 1 then x.map (STensor.repeatAxis0 rep) else x)
    (hpos : 0 < n_dim * k)
    (hlen : (mean_net x').data.length = b * (n_dim * k))
    (hs : ∀ t, (sample t).data.length = t.data.length) :
    Categorical.inferK [b, n_dim, k] = k ∧
    Categorical.fprop n_dim k mean_net x' =
      some ⟨[b, n_dim * k], (mean_net x').data⟩ ∧
    ∃ out : STensor,
      Categorical.sample_given_x n_dim k mean_net sample x rep =
        some (x', out) ∧
      out.shape = [b, n_dim * k] := by
  subst hx'
  set X := (if rep ≠ 1 then x.map (STensor.repeatAxis0 rep) else x) with hX
  have hdvd : (n_dim * k) ∣ (mean_net X).data.length := ⟨b, by rw [hlen]; ring⟩
  have hquot : (mean_net X).data.length / (n_dim * k) = b := by
    rw [hlen, Nat.mul_div_cancel b hpos]
  refine ⟨rfl, ?_, ?_⟩
  · simp only [Categorical.fprop, STensor.reshapeNeg1, if_pos (And.intro hpos hdvd),
      hquot]
  · have hlen2 : (sample (mean_net X)).data.length = b * (n_dim * k) := by
      rw [hs, hlen]
    have hdvd2 : (n_dim * k) ∣ (sample (mean_net X)).data.length :=
      ⟨b, by rw [hlen2]; ring⟩
    have hquot2 : (sample (mean_net X)).data.length / (n_dim * k) = b := by
      rw [hlen2, Nat.mul_div_cancel b hpos]
    refine ⟨⟨[b, n_dim * k], (sample (mean_net X)).data⟩, ?_, rfl⟩
    simp only [Categorical.sample_given_x, ← hX, STensor.reshapeNeg1,
      if_pos (And.intro hpos hdvd2), hquot2]

/-- Witness for the amended C8 with `n_dim = 2`, `K = 3`, batch `1` and
the identity sampler on a predictor declaring `(1, 2, 3)`. -/
theorem claim_categorical_reshape_witness :
    0 < 2 * 3 ∧
    Categorical.fprop 2 3 catNetCube [] =
      some ⟨[1, 2 * 3], (catNetCube []).data⟩ :=
  ⟨by norm_num,
    (claim_categorical_reshape 2 3 1 1 catNetCube (fun t => t) [] []
      (by simp) (by norm_num) rfl (fun t => rfl)).2.1⟩
